import Mathlib

/-!
Shallow embedding of `src/skinny_mutex.c` (the threadkit skinny mutex).

A skinny mutex is a single pointer-sized word `val`: 0 = unlocked,
1 = held and uncontended, otherwise a pointer to a peg chain ending at a
heap-allocated `fat_mutex` carrying the blocking machinery.

The embedding models each C function as a Lean function over explicit
state.  Results of the external pthreads primitives (lock, unlock, init,
destroy, wait, signal, broadcast) are passed in as integer parameters, so
that error paths are covered.  CAS operations on the skinny word are
modelled by passing both the value the code observed earlier and the value
the word holds at the moment of the CAS; the CAS succeeds exactly when the
two agree.  Heap (de)allocation and the pthreads calls are recorded in an
event trace.
-/

namespace SkinnyMutex

/-- POSIX error codes as used by the source. -/
def EPERM : Int := 1

/-- EAGAIN, returned by a vetoed transfer. -/
def EAGAIN : Int := 11

/-- ENOMEM, returned when `malloc` fails. -/
def ENOMEM : Int := 12

/-- EBUSY, returned by a failed trylock. -/
def EBUSY : Int := 16

/-- `recover(res1, res2)` from skinny_mutex.c: how to behave when an error is
met while recovering from another error.  If both are nonzero the process
aborts (modelled as `none`); otherwise the nonzero one (if any) is
returned. -/
def recover (res1 res2 : Int) : Option Int :=
  if res2 = 0 then some res1
  else if res1 = 0 then some res2
  else none

/-- The value of the one-word skinny mutex handle.  `v0` and `v1` are the
integer sentinels 0 and 1; `fatPtr` is a pointer directly to the fat mutex
(primary chain of length zero); `pegPtr` is a pointer to a peg chain head. -/
inductive SVal where
  | v0
  | v1
  | fatPtr
  | pegPtr
deriving DecidableEq, Repr

/-- The mutable fields of `struct fat_mutex` (besides the embedded pthreads
mutex and condition variable, which are represented only through the results
of the calls made on them). -/
structure FatMutex where
  held : Bool
  waiters : Int
  refcount : Int
  transfer_gen : Int
  transfers : Int
deriving DecidableEq, Repr

/-- Events recorded by the embedding: pthreads calls on the fat mutex's
primitives, frees, and the field updates a claim needs to observe. -/
inductive Ev where
  | mutexInitCall
  | condInitCall
  | mutexLockCall
  | mutexUnlockCall
  | mutexDestroyCall
  | condDestroyCall
  | freeFat
  | freePeg
  | condSignalCall
  | condBroadcastCall
  | condWaitCall
  | decTransfers
  | decWaiters
  | lockACall
deriving DecidableEq, Repr

/-! ## `fat_mutex_release` -/

/-- Result of `fat_mutex_release`. -/
structure RelOut where
  ret : Int
  fatAlive : Bool
  fat : FatMutex
  val : SVal
  trace : List Ev
deriving DecidableEq, Repr

/-- `fat_mutex_release(skinny, fat)` from the source, called holding
`fat->mutex`:

    keep = (--fat->refcount || !CAS(&skinny->val, fat, NULL));
    res = pthread_mutex_unlock(&fat->mutex);
    if (keep || res) return res;
    res = pthread_mutex_destroy(&fat->mutex); if (res) return res;
    res = pthread_cond_destroy(&fat->cond);   if (res) return res;
    free(fat); return 0;

`valAtCas` is the value held by the skinny word when the CAS runs (the C
`||` short-circuits, so the CAS is only attempted when the decremented
refcount is zero).  `unlockRes`, `mdRes`, `cdRes` are the results of the
unlock and the two destroy calls. -/
def fat_mutex_release (valAtCas : SVal) (fat : FatMutex)
    (unlockRes mdRes cdRes : Int) : RelOut :=
  let rc := fat.refcount - 1
  let fat' : FatMutex := { fat with refcount := rc }
  if rc = 0 ∧ valAtCas = SVal.fatPtr then
    if unlockRes ≠ 0 then
      ⟨unlockRes, true, fat', SVal.v0, [.mutexUnlockCall]⟩
    else if mdRes ≠ 0 then
      ⟨mdRes, true, fat', SVal.v0, [.mutexUnlockCall, .mutexDestroyCall]⟩
    else if cdRes ≠ 0 then
      ⟨cdRes, true, fat', SVal.v0,
        [.mutexUnlockCall, .mutexDestroyCall, .condDestroyCall]⟩
    else
      ⟨0, false, fat', SVal.v0,
        [.mutexUnlockCall, .mutexDestroyCall, .condDestroyCall, .freeFat]⟩
  else
    ⟨unlockRes, true, fat', valAtCas, [.mutexUnlockCall]⟩

/-! ## `skinny_mutex_promote` -/

/-- Result of `skinny_mutex_promote`. -/
structure PromOut where
  ret : Int
  fat : Option FatMutex
  val : SVal
  trace : List Ev
deriving DecidableEq, Repr

/-- `skinny_mutex_promote(skinny, head, fatp)` from the source.  `head` is
the observed skinny value, which is ≤ 1 on this path; we pass it as the
boolean `head = (observed value == 1)`.  `mallocOk` tells whether the
allocation succeeded; `miRes`, `ciRes`, `lkRes` are the results of
`pthread_mutex_init`, `pthread_cond_init` and `pthread_mutex_lock`;
`valAtCas` is the skinny word at the installing CAS, which succeeds exactly
when it still equals the observed head. -/
def skinny_mutex_promote (head : Bool) (mallocOk : Bool)
    (miRes ciRes lkRes : Int) (valAtCas : SVal) : PromOut :=
  if ¬mallocOk then ⟨ENOMEM, none, valAtCas, []⟩
  else
    let fat : FatMutex :=
      { held := head
        waiters := 0
        refcount := if head then 1 else 0
        transfer_gen := 0
        transfers := 0 }
    if miRes ≠ 0 then
      ⟨miRes, none, valAtCas, [.mutexInitCall, .freeFat]⟩
    else if ciRes ≠ 0 then
      ⟨ciRes, none, valAtCas,
        [.mutexInitCall, .condInitCall, .mutexDestroyCall, .freeFat]⟩
    else if lkRes ≠ 0 then
      ⟨lkRes, none, valAtCas,
        [.mutexInitCall, .condInitCall, .mutexLockCall,
         .condDestroyCall, .mutexDestroyCall, .freeFat]⟩
    else if valAtCas = (if head then SVal.v1 else SVal.v0) then
      ⟨0, some fat, SVal.fatPtr, [.mutexInitCall, .condInitCall, .mutexLockCall]⟩
    else
      ⟨-1, none, valAtCas,
        [.mutexInitCall, .condInitCall, .mutexLockCall, .mutexUnlockCall,
         .condDestroyCall, .mutexDestroyCall, .freeFat]⟩

/-! ## The peg release walk of `fat_mutex_peg`

After installing its peg and locking the fat mutex, `fat_mutex_peg`
exchanges the skinny word to point directly at the fat mutex (obtaining the
old chain head `p`), preemptively increments `fat->refcount`, and then runs
two decrement loops: the first walks the exchanged chain until it meets the
caller's own peg (decrement 2 pending), the fat (refcount--), or a stranger
peg that survives a decrement of 1; the second cascades from the caller's
own peg.  Since the whole phase runs while holding `fat->mutex`, walks are
serialized, and the exchanged chain is a finite acyclic `next`-path, which
we model as a list of pegs ending at the fat. -/

/-- 8-bit wraparound subtraction, as `__sync_sub_and_fetch` applied to the
one-byte peg refcount. -/
def sub8 (rc d : Nat) : Nat := (rc + (256 - d % 256)) % 256

/-- A peg as seen by the release walk: whether it is the walking thread's
own peg, and its current refcount. -/
structure PegN where
  mine : Bool
  rc : Nat
deriving DecidableEq, Repr

/-- Result of a decrement cascade along a peg chain: the visited pegs with
the amount subtracted from each, how many pegs were freed, the surviving
suffix of the chain (its head already decremented), and whether the walk
ran off the end of the chain onto the fat and decremented `fat->refcount`. -/
structure CascOut where
  log : List (PegN × Nat)
  freed : Nat
  remaining : List PegN
  fatDec : Bool
deriving DecidableEq, Repr

/-- The second loop of `fat_mutex_peg` (and the tail behaviour shared with
the first): subtract `d` from the head peg's refcount; if it reaches zero,
free the peg and continue down the chain with decrement 1; otherwise stop,
leaving the suffix in place.  Reaching the end of the list is reaching the
fat mutex, whose refcount is then decremented (`fatDec`). -/
def cascade (d : Nat) : List PegN → CascOut
  | [] => ⟨[], 0, [], true⟩
  | n :: rest =>
    if sub8 n.rc d = 0 then
      let o := cascade 1 rest
      ⟨(n, d) :: o.log, o.freed + 1, o.remaining, o.fatDec⟩
    else
      ⟨[(n, d)], 0, { n with rc := sub8 n.rc d } :: rest, false⟩

/-- Outcome of the first loop of `fat_mutex_peg`: either it met the
caller's own peg (after freeing `freed` strangers, logged in `log`, with
`rest` the chain beyond the peg), or it ended like a plain cascade (at the
fat, or at a surviving stranger). -/
inductive W1Out where
  | metMine (log : List (PegN × Nat)) (freed : Nat) (rest : List PegN)
  | ended (c : CascOut)
deriving DecidableEq, Repr

/-- The first loop of `fat_mutex_peg`: walk the exchanged chain; stop
without decrementing upon meeting the caller's own peg; decrement the fat
upon reaching it; decrement strangers by 1, freeing and continuing when the
refcount reaches zero, stopping otherwise. -/
def walk1 : List PegN → W1Out
  | [] => .ended ⟨[], 0, [], true⟩
  | n :: rest =>
    if n.mine then .metMine [] 0 rest
    else if sub8 n.rc 1 = 0 then
      match walk1 rest with
      | .metMine log f r => .metMine ((n, 1) :: log) (f + 1) r
      | .ended c => .ended ⟨(n, 1) :: c.log, c.freed + 1, c.remaining, c.fatDec⟩
    else .ended ⟨[(n, 1)], 0, { n with rc := sub8 n.rc 1 } :: rest, false⟩

/-- Result of the release phase of `fat_mutex_peg`: the full decrement log,
the number of pegs freed, and the final `fat->refcount`. -/
structure WalkOut where
  log : List (PegN × Nat)
  freed : Nat
  fat : Int
deriving DecidableEq, Repr

/-- The release phase of `fat_mutex_peg` (everything after the
`atomic_xchg`): preemptively increment `fat->refcount`, run the first loop
over the exchanged chain, then run the cascade from the caller's own peg —
with decrement 2 if the first loop met it there (continuing beyond it on
the same chain), and with decrement 1 otherwise (continuing along the
caller's peg's own `next` chain `mySuf`).  `myRc` is the caller's peg's
refcount. -/
def fat_mutex_peg_walk (exchanged : List PegN) (myRc : Nat) (mySuf : List PegN)
    (fatrc : Int) : WalkOut :=
  match walk1 exchanged with
  | .metMine log1 f1 rest =>
    let c := cascade 2 (⟨true, myRc⟩ :: rest)
    ⟨log1 ++ c.log, f1 + c.freed, fatrc + 1 - (if c.fatDec then 1 else 0)⟩
  | .ended c1 =>
    let c2 := cascade 1 (⟨true, myRc⟩ :: mySuf)
    ⟨c1.log ++ c2.log, c1.freed + c2.freed,
      fatrc + 1 - (if c1.fatDec then 1 else 0) - (if c2.fatDec then 1 else 0)⟩

/-- `fat_mutex_peg` itself, from the point where the install CAS has
succeeded: lock the fat mutex (result `lockRes`), run the release walk, and
return `lockRes`. -/
def fat_mutex_peg (lockRes : Int) (exchanged : List PegN) (myRc : Nat)
    (mySuf : List PegN) (fatrc : Int) : Int × WalkOut :=
  (lockRes, fat_mutex_peg_walk exchanged myRc mySuf fatrc)

/-- Does the chain contain the walking thread's own peg? -/
def hasMine (l : List PegN) : Bool := l.any (·.mine)

/-- Did the walk leave behind a new secondary chain (a surviving suffix of
the structure that the walk cut loose from the skinny word)?  In the
met-mine case this is the survivor of the cascade from our peg; otherwise
it is the survivor of the first loop over the exchanged chain. -/
def newChainLeft (exchanged : List PegN) (myRc : Nat) : Bool :=
  match walk1 exchanged with
  | .metMine _ _ rest => !((cascade 2 (⟨true, myRc⟩ :: rest)).remaining.isEmpty)
  | .ended c1 => !(c1.remaining.isEmpty)

/-- Does the walker's pre-existing secondary chain (present exactly when its
own peg was no longer on the exchanged chain) survive the walk? -/
def oldChainLeft (exchanged : List PegN) (myRc : Nat) (mySuf : List PegN) : Bool :=
  if hasMine exchanged then false
  else !((cascade 1 (⟨true, myRc⟩ :: mySuf)).remaining.isEmpty)

/-- Is the first node of the exchanged chain the caller's own peg? -/
def firstIsMine : List PegN → Bool
  | [] => false
  | n :: _ => n.mine

/-- The log of the first loop's outcome. -/
def W1Out.logOf : W1Out → List (PegN × Nat)
  | .metMine log _ _ => log
  | .ended c => c.log

lemma cascade_remaining_empty_iff (d : Nat) (l : List PegN) :
    (cascade d l).remaining = [] ↔ (cascade d l).fatDec = true := by
  induction l generalizing d with
  | nil => simp [cascade]
  | cons n rest ih =>
    simp only [cascade]
    split_ifs with h
    · simpa using ih 1
    · simp

lemma cascade_log_one (l : List PegN) : ∀ e ∈ (cascade 1 l).log, e.2 = 1 := by
  induction l with
  | nil => simp [cascade]
  | cons n rest ih =>
    simp only [cascade]
    split_ifs with h
    · intro e he
      rcases List.mem_cons.mp he with h1 | h1
      · simp [h1]
      · exact ih e h1
    · intro e he
      simp only [List.mem_singleton] at he
      simp [he]

lemma cascade_log_tail (d : Nat) (l : List PegN) :
    ∀ e ∈ (cascade d l).log.tail, e.2 = 1 := by
  cases l with
  | nil => simp [cascade]
  | cons n rest =>
    simp only [cascade]
    split_ifs with h
    · simpa using cascade_log_one rest
    · simp

lemma cascade_log_head (d : Nat) (l : List PegN) :
    ∀ e ∈ (cascade d l).log.head?, e.2 = d := by
  cases l with
  | nil => simp [cascade]
  | cons n rest =>
    simp only [cascade]
    split_ifs with h <;> simp

lemma cascade_freed_filter (d : Nat) (l : List PegN) :
    (cascade d l).freed
      = ((cascade d l).log.filter (fun e => sub8 e.1.rc e.2 == 0)).length := by
  induction l generalizing d with
  | nil => simp [cascade]
  | cons n rest ih =>
    simp only [cascade]
    split_ifs with h
    · simp [List.filter_cons, h, ih 1]
    · simp [List.filter_cons, h]

lemma walk1_metMine_hasMine {l : List PegN} {log : List (PegN × Nat)} {f : Nat}
    {r : List PegN} (h : walk1 l = .metMine log f r) : hasMine l = true := by
  induction l generalizing log f r with
  | nil => simp [walk1] at h
  | cons n rest ih =>
    simp only [walk1] at h
    by_cases hm : n.mine
    · simp [hasMine, hm]
    · rw [if_neg hm] at h
      by_cases hz : sub8 n.rc 1 = 0
      · rw [if_pos hz] at h
        cases hw : walk1 rest with
        | metMine l2 f2 r2 =>
          have := ih hw
          simp [hasMine] at this ⊢
          exact Or.inr this
        | ended c => rw [hw] at h; exact absurd h (by simp)
      · rw [if_neg hz] at h; exact absurd h (by simp)

lemma walk1_ended_remaining_iff {l : List PegN} {c : CascOut}
    (h : walk1 l = .ended c) : c.remaining = [] ↔ c.fatDec = true := by
  induction l generalizing c with
  | nil =>
    simp only [walk1, W1Out.ended.injEq] at h
    subst h; simp
  | cons n rest ih =>
    simp only [walk1] at h
    by_cases hm : n.mine
    · rw [if_pos hm] at h; exact absurd h (by simp)
    · rw [if_neg hm] at h
      by_cases hz : sub8 n.rc 1 = 0
      · rw [if_pos hz] at h
        cases hw : walk1 rest with
        | metMine l2 f2 r2 => rw [hw] at h; exact absurd h (by simp)
        | ended c' =>
          rw [hw] at h
          simp only [W1Out.ended.injEq] at h
          subst h
          simpa using ih hw
      · rw [if_neg hz] at h
        simp only [W1Out.ended.injEq] at h
        subst h; simp

lemma walk1_ended_fatDec_of_hasMine {l : List PegN} {c : CascOut}
    (hm : hasMine l = true) (h : walk1 l = .ended c) : c.fatDec = false := by
  induction l generalizing c with
  | nil => simp [hasMine] at hm
  | cons n rest ih =>
    simp only [walk1] at h
    by_cases hmn : n.mine
    · rw [if_pos hmn] at h; exact absurd h (by simp)
    · rw [if_neg hmn] at h
      have hmr : hasMine rest = true := by
        simp [hasMine, hmn] at hm
        simpa [hasMine] using hm
      by_cases hz : sub8 n.rc 1 = 0
      · rw [if_pos hz] at h
        cases hw : walk1 rest with
        | metMine l2 f2 r2 => rw [hw] at h; exact absurd h (by simp)
        | ended c' =>
          rw [hw] at h
          simp only [W1Out.ended.injEq] at h
          subst h
          simpa using ih hmr hw
      · rw [if_neg hz] at h
        simp only [W1Out.ended.injEq] at h
        subst h; simp

lemma walk1_metMine_freed_filter {l : List PegN} {log : List (PegN × Nat)}
    {f : Nat} {r : List PegN} (h : walk1 l = .metMine log f r) :
    f = (log.filter (fun e => sub8 e.1.rc e.2 == 0)).length ∧ ∀ e ∈ log, e.2 = 1 := by
  induction l generalizing log f r with
  | nil => simp [walk1] at h
  | cons n rest ih =>
    simp only [walk1] at h
    by_cases hm : n.mine
    · rw [if_pos hm] at h
      simp only [W1Out.metMine.injEq] at h
      obtain ⟨h1, h2, h3⟩ := h
      subst h1; subst h2
      simp
    · rw [if_neg hm] at h
      by_cases hz : sub8 n.rc 1 = 0
      · rw [if_pos hz] at h
        cases hw : walk1 rest with
        | metMine l2 f2 r2 =>
          rw [hw] at h
          simp only [W1Out.metMine.injEq] at h
          obtain ⟨h1, h2, h3⟩ := h
          subst h1; subst h2
          obtain ⟨ihf, ihl⟩ := ih hw
          constructor
          · simp [List.filter_cons, hz, ihf]
          · intro e he
            rcases List.mem_cons.mp he with h1 | h1
            · simp [h1]
            · exact ihl e h1
        | ended c => rw [hw] at h; exact absurd h (by simp)
      · rw [if_neg hz] at h; exact absurd h (by simp)

lemma walk1_ended_freed_filter {l : List PegN} {c : CascOut}
    (h : walk1 l = .ended c) :
    c.freed = (c.log.filter (fun e => sub8 e.1.rc e.2 == 0)).length
      ∧ ∀ e ∈ c.log, e.2 = 1 := by
  induction l generalizing c with
  | nil =>
    simp only [walk1, W1Out.ended.injEq] at h
    subst h; simp
  | cons n rest ih =>
    simp only [walk1] at h
    by_cases hm : n.mine
    · rw [if_pos hm] at h; exact absurd h (by simp)
    · rw [if_neg hm] at h
      by_cases hz : sub8 n.rc 1 = 0
      · rw [if_pos hz] at h
        cases hw : walk1 rest with
        | metMine l2 f2 r2 => rw [hw] at h; exact absurd h (by simp)
        | ended c' =>
          rw [hw] at h
          simp only [W1Out.ended.injEq] at h
          subst h
          obtain ⟨ihf, ihl⟩ := ih hw
          constructor
          · simp [List.filter_cons, hz, ihf]
          · intro e he
            rcases List.mem_cons.mp he with h1 | h1
            · simp [h1]
            · exact ihl e h1
      · rw [if_neg hz] at h
        simp only [W1Out.ended.injEq] at h
        subst h
        constructor
        · simp [List.filter_cons, hz]
        · intro e he
          simp only [List.mem_singleton] at he
          simp [he]

lemma pegWalk_conservation (exchanged : List PegN) (myRc : Nat) (mySuf : List PegN)
    (fatrc : Int) (h2 : hasMine exchanged = true → myRc = 2) :
    (fat_mutex_peg_walk exchanged myRc mySuf fatrc).fat
      = fatrc - (if hasMine exchanged = true then 0 else 1)
        + (if newChainLeft exchanged myRc = true then 1 else 0)
        + (if oldChainLeft exchanged myRc mySuf = true then 1 else 0) := by
  cases hw : walk1 exchanged with
  | metMine log1 f1 rest =>
    have hm := walk1_metMine_hasMine hw
    simp only [fat_mutex_peg_walk, newChainLeft, oldChainLeft, hw, hm, if_pos,
      if_true, Bool.true_eq_false, if_false]
    have hiff := cascade_remaining_empty_iff 2 (⟨true, myRc⟩ :: rest)
    by_cases hf : (cascade 2 (⟨true, myRc⟩ :: rest)).fatDec = true
    · have hre : (cascade 2 (⟨true, myRc⟩ :: rest)).remaining = [] := hiff.mpr hf
      simp [hf, hre]
    · have hre : (cascade 2 (⟨true, myRc⟩ :: rest)).remaining ≠ [] := by
        intro hx; exact hf (hiff.mp hx)
      simp only [Bool.not_eq_true] at hf
      simp [hf, List.isEmpty_iff, hre]
  | ended c1 =>
    by_cases hm : hasMine exchanged = true
    · have hfd := walk1_ended_fatDec_of_hasMine hm hw
      have hrem : c1.remaining ≠ [] := by
        intro hx
        rw [(walk1_ended_remaining_iff hw).mp hx] at hfd
        exact absurd hfd (by simp)
      have h2' := h2 hm
      subst h2'
      have hc2 : cascade 1 (⟨true, (2 : Nat)⟩ :: mySuf)
          = ⟨[(⟨true, 2⟩, 1)], 0, ⟨true, 1⟩ :: mySuf, false⟩ := rfl
      simp only [fat_mutex_peg_walk, newChainLeft, oldChainLeft, hw, hm, hc2,
        hfd, if_true]
      simp [List.isEmpty_iff, hrem]
    · have hiff1 := walk1_ended_remaining_iff hw
      have hiff2 := cascade_remaining_empty_iff 1 (⟨true, myRc⟩ :: mySuf)
      simp only [fat_mutex_peg_walk, newChainLeft, oldChainLeft, hw, hm, if_false]
      by_cases h1 : c1.fatDec = true <;>
        by_cases hq : (cascade 1 (⟨true, myRc⟩ :: mySuf)).fatDec = true
      · have hr1 : c1.remaining = [] := hiff1.mpr h1
        have hr2 : (cascade 1 (⟨true, myRc⟩ :: mySuf)).remaining = [] := hiff2.mpr hq
        simp [h1, hq, hr1, hr2]
      · have hr1 : c1.remaining = [] := hiff1.mpr h1
        have hr2 : (cascade 1 (⟨true, myRc⟩ :: mySuf)).remaining ≠ [] := by
          intro hx; exact hq (hiff2.mp hx)
        simp only [Bool.not_eq_true] at hq
        simp [h1, hq, hr1, List.isEmpty_iff, hr2]
      · have hr1 : c1.remaining ≠ [] := by
          intro hx; exact h1 (hiff1.mp hx)
        have hr2 : (cascade 1 (⟨true, myRc⟩ :: mySuf)).remaining = [] := hiff2.mpr hq
        simp only [Bool.not_eq_true] at h1
        simp [h1, hq, hr2, List.isEmpty_iff, hr1]
      · have hr1 : c1.remaining ≠ [] := by
          intro hx; exact h1 (hiff1.mp hx)
        have hr2 : (cascade 1 (⟨true, myRc⟩ :: mySuf)).remaining ≠ [] := by
          intro hx; exact hq (hiff2.mp hx)
        simp only [Bool.not_eq_true] at h1 hq
        simp [h1, hq, List.isEmpty_iff, hr1, hr2]

/-- **C1.** For every execution of the peg protocol (`fat_mutex_peg`) that
returns success, the fat's refcount accounting is preserved: the walk
starting from the old skinny value decrements 2 at the first node when that
node is the caller's own peg and 1 at every subsequent node; a stranger peg
is freed exactly when its refcount reaches 0 (the freed count equals the
number of logged decrements that hit zero); and on completion every
surviving secondary peg chain contributes exactly 1 to `fat.refcount`: if
the refcount entering the walk was (number of secondary chains in scope) +
`other`, the refcount on completion is (number of surviving secondary
chains in scope) + `other` — so the preemptive increment of step 5 is
reversed exactly when no new secondary chain was left behind.  The
hypotheses record the state of a chain exchanged out of the skinny word
while holding `fat->mutex`: pegs on it hold both their references (refcount
2), and the caller's peg holds refcount 2 if it is still on the chain and 1
(its thread reference only) if it was orphaned. -/
theorem fat_mutex_peg_refcount_accounting
    (lockRes : Int) (exchanged : List PegN) (myRc : Nat) (mySuf : List PegN)
    (fatrc : Int)
    (hres : lockRes = 0)
    (hMine : hasMine exchanged = true → myRc = 2)
    (hStrangers : ∀ n ∈ exchanged, n.mine = false → n.rc = 2) :
    (fat_mutex_peg lockRes exchanged myRc mySuf fatrc).1 = 0
    ∧ (∀ e ∈ (fat_mutex_peg lockRes exchanged myRc mySuf fatrc).2.log.tail, e.2 = 1)
    ∧ (∀ e ∈ (fat_mutex_peg lockRes exchanged myRc mySuf fatrc).2.log.head?,
        (e.2 = 2 ↔ firstIsMine exchanged = true))
    ∧ (fat_mutex_peg lockRes exchanged myRc mySuf fatrc).2.freed
        = ((fat_mutex_peg lockRes exchanged myRc mySuf fatrc).2.log.filter
            (fun e => sub8 e.1.rc e.2 == 0)).length
    ∧ ∀ other : Int,
        fatrc = (if hasMine exchanged = true then 0 else 1) + other →
        (fat_mutex_peg lockRes exchanged myRc mySuf fatrc).2.fat
          = ((if newChainLeft exchanged myRc = true then 1 else 0)
              + (if oldChainLeft exchanged myRc mySuf = true then 1 else 0) : Int)
            + other := by
  subst hres
  have key : (∀ e ∈ (fat_mutex_peg_walk exchanged myRc mySuf fatrc).log.tail, e.2 = 1)
      ∧ (∀ e ∈ (fat_mutex_peg_walk exchanged myRc mySuf fatrc).log.head?,
          (e.2 = 2 ↔ firstIsMine exchanged = true))
      ∧ (fat_mutex_peg_walk exchanged myRc mySuf fatrc).freed
          = ((fat_mutex_peg_walk exchanged myRc mySuf fatrc).log.filter
              (fun e => sub8 e.1.rc e.2 == 0)).length := by
    rcases exchanged with _ | ⟨n, rest⟩
    · have hw : walk1 ([] : List PegN) = .ended ⟨[], 0, [], true⟩ := rfl
      simp only [fat_mutex_peg_walk, hw]
      refine ⟨?_, ?_, ?_⟩
      · simpa using cascade_log_tail 1 (⟨true, myRc⟩ :: mySuf)
      · intro e he
        have h1 := cascade_log_head 1 (⟨true, myRc⟩ :: mySuf) e (by simpa using he)
        simp [firstIsMine, h1]
      · simpa using cascade_freed_filter 1 (⟨true, myRc⟩ :: mySuf)
    · by_cases hm : n.mine
      · have hw : walk1 (n :: rest) = .metMine [] 0 rest := by simp [walk1, hm]
        simp only [fat_mutex_peg_walk, hw]
        refine ⟨?_, ?_, ?_⟩
        · simpa using cascade_log_tail 2 (⟨true, myRc⟩ :: rest)
        · intro e he
          have h1 := cascade_log_head 2 (⟨true, myRc⟩ :: rest) e (by simpa using he)
          simp [firstIsMine, hm, h1]
        · simpa using cascade_freed_filter 2 (⟨true, myRc⟩ :: rest)
      · have hrc : n.rc = 2 := hStrangers n (List.mem_cons_self n rest) (by simpa using hm)
        have hz : ¬(sub8 n.rc 1 = 0) := by rw [hrc]; decide
        have hw : walk1 (n :: rest)
            = .ended ⟨[(n, 1)], 0, { n with rc := sub8 n.rc 1 } :: rest, false⟩ := by
          simp [walk1, hm, hz]
        simp only [fat_mutex_peg_walk, hw]
        refine ⟨?_, ?_, ?_⟩
        · simpa using cascade_log_one (⟨true, myRc⟩ :: mySuf)
        · intro e he
          simp only [List.cons_append, List.head?_cons, Option.mem_def,
            Option.some.injEq] at he
          subst he
          simp [firstIsMine, hm]
        · have hfc : (fun (e : PegN × Nat) => sub8 e.1.rc e.2 == 0) (n, 1) = false := by
            simp [hz]
          simp [List.filter_cons, hfc, cascade_freed_filter 1 (⟨true, myRc⟩ :: mySuf)]
  refine ⟨rfl, key.1, key.2.1, key.2.2, ?_⟩
  intro other hother
  have hc := pegWalk_conservation exchanged myRc mySuf fatrc hMine
  simp only [fat_mutex_peg]
  rw [hc, hother]
  split_ifs <;> omega

/-- Concrete instance of C1's conservation clause: exchanged chain is our
peg (refcount 2) over one stranger (refcount 2); the walk frees our peg,
the stranger survives as a new secondary chain, and the fat refcount goes
from 5 to 6 = 1 + 0 + 5. -/
theorem fat_mutex_peg_refcount_accounting_witness :
    (fat_mutex_peg 0 [⟨true, 2⟩, ⟨false, 2⟩] 2 [⟨false, 2⟩] 5).2.fat
      = ((if newChainLeft [⟨true, 2⟩, ⟨false, 2⟩] 2 = true then 1 else 0)
          + (if oldChainLeft [⟨true, 2⟩, ⟨false, 2⟩] 2 [⟨false, 2⟩] = true then 1 else 0) : Int)
        + 5 :=
  (fat_mutex_peg_refcount_accounting 0 [⟨true, 2⟩, ⟨false, 2⟩] 2 [⟨false, 2⟩] 5 rfl
    (fun _ => rfl) (by decide)).2.2.2.2 5 (by decide)

/-- **C2 (amended).** For every call to `fat_mutex_release` made while
holding `fat.mutex`: the refcount is decremented; the mutex is unlocked in
every case (the unlock is the first primitive call); and, when the unlock
and destroy primitives succeed, the fat is kept exactly when the
decremented refcount is nonzero or the CAS of the skinny word from `&fat`
to 0 fails, and when the fat is not kept the teardown sequence is: destroy
the mutex, destroy the condition variable, free the fat. -/
theorem fat_mutex_release_spec (valAtCas : SVal) (fat : FatMutex) (u m c : Int) :
    (fat_mutex_release valAtCas fat u m c).fat.refcount = fat.refcount - 1
    ∧ (fat_mutex_release valAtCas fat u m c).trace.head? = some Ev.mutexUnlockCall
    ∧ (u = 0 → m = 0 → c = 0 →
        (((fat_mutex_release valAtCas fat u m c).fatAlive = true
            ↔ ¬(fat.refcount - 1 = 0 ∧ valAtCas = SVal.fatPtr))
          ∧ ((fat_mutex_release valAtCas fat u m c).fatAlive = false →
              (fat_mutex_release valAtCas fat u m c).trace
                = [.mutexUnlockCall, .mutexDestroyCall, .condDestroyCall, .freeFat]))) := by
  unfold fat_mutex_release
  split_ifs <;> simp_all
  all_goals split_ifs <;> simp_all

/-- Witness for C2: releasing the last reference with the skinny word
pointing at the fat and all primitives succeeding performs the full
teardown in the order unlock, destroy mutex, destroy cond, free. -/
theorem fat_mutex_release_spec_witness :
    (fat_mutex_release SVal.fatPtr ⟨false, 0, 1, 0, 0⟩ 0 0 0).trace
      = [Ev.mutexUnlockCall, Ev.mutexDestroyCall, Ev.condDestroyCall, Ev.freeFat] :=
  ((fat_mutex_release_spec SVal.fatPtr ⟨false, 0, 1, 0, 0⟩ 0 0 0).2.2 rfl rfl rfl).2
    (by decide)

/-- **C2 counterexample.** At a concrete input where the fat is torn down
(refcount falls to 0, CAS succeeds, primitives succeed), the code destroys
the mutex before the condition variable, so the claim's teardown sequence
"destroy the condition variable, destroy the mutex, free the fat" is
false. -/
theorem fat_mutex_release_order_counterexample :
    (fat_mutex_release SVal.fatPtr ⟨false, 0, 1, 0, 0⟩ 0 0 0).trace
        = [Ev.mutexUnlockCall, Ev.mutexDestroyCall, Ev.condDestroyCall, Ev.freeFat]
    ∧ (fat_mutex_release SVal.fatPtr ⟨false, 0, 1, 0, 0⟩ 0 0 0).trace
        ≠ [Ev.mutexUnlockCall, Ev.condDestroyCall, Ev.mutexDestroyCall, Ev.freeFat] := by
  decide

/-- **C4 (amended).** Provided the unlock/destroy primitives succeed, the
paths that set the skinny word to a sentinel leave no allocated fat behind:
the release path yields `val = 0` only together with the fat freed, and a
promotion that does not succeed (CAS failure, allocation failure, or
primitive-init failure) leaves no new fat allocated, while a successful
promotion sets the word to the fat pointer (not a sentinel). -/
theorem val_sentinel_no_fat
    (valAtCas : SVal) (fat : FatMutex) (u m c : Int)
    (head mallocOk : Bool) (mi ci lk : Int) (pCas : SVal)
    (hval : valAtCas = SVal.fatPtr ∨ valAtCas = SVal.pegPtr)
    (hu : u = 0) (hm : m = 0) (hc : c = 0) :
    (((fat_mutex_release valAtCas fat u m c).val = SVal.v0
        ∨ (fat_mutex_release valAtCas fat u m c).val = SVal.v1) →
      (fat_mutex_release valAtCas fat u m c).fatAlive = false)
    ∧ ((skinny_mutex_promote head mallocOk mi ci lk pCas).ret ≠ 0 →
        (skinny_mutex_promote head mallocOk mi ci lk pCas).fat = none)
    ∧ ((skinny_mutex_promote head mallocOk mi ci lk pCas).ret = 0 →
        (skinny_mutex_promote head mallocOk mi ci lk pCas).val = SVal.fatPtr) := by
  subst hu; subst hm; subst hc
  refine ⟨?_, ?_, ?_⟩
  · rcases hval with h | h <;> subst h
    · by_cases hrc : fat.refcount - 1 = 0
      · simp [fat_mutex_release, hrc]
      · simp [fat_mutex_release, hrc]
    · simp [fat_mutex_release]
  · unfold skinny_mutex_promote
    split_ifs <;> simp_all [ENOMEM]
  · unfold skinny_mutex_promote
    split_ifs <;> simp_all [ENOMEM]

/-- Witness for C4: the full-teardown instance reaches `val = 0` with the
fat freed. -/
theorem val_sentinel_no_fat_witness :
    (fat_mutex_release SVal.fatPtr ⟨false, 0, 1, 0, 0⟩ 0 0 0).fatAlive = false :=
  (val_sentinel_no_fat SVal.fatPtr ⟨false, 0, 1, 0, 0⟩ 0 0 0 false true 0 0 0 SVal.v0
    (Or.inl rfl) rfl rfl rfl).1 (Or.inl (by decide))

/-- **C4 counterexample.** On the release path, if the CAS from `&fat` to 0
succeeds but `pthread_mutex_destroy` then fails (here with error 22), the
function returns the error with the skinny word already 0 and the fat still
allocated — so "if val equals 0, no fat structure is allocated", read over
all paths, is false. -/
theorem val_zero_fat_leak_counterexample :
    (fat_mutex_release SVal.fatPtr ⟨false, 0, 1, 0, 0⟩ 0 22 0).val = SVal.v0
    ∧ (fat_mutex_release SVal.fatPtr ⟨false, 0, 1, 0, 0⟩ 0 22 0).fatAlive = true := by
  decide

/-- **C6.** For every promotion with observed head ≤ 1: on success the new
fat has `held = (head == 1)`, `refcount = (held ? 1 : 0)`, `waiters = 0`,
`transfer_gen = 0`, `transfers = 0`; on CAS failure the fat is unlocked,
its primitives destroyed, it is freed, and the retry sentinel (−1) is
returned; a cond-init failure unwinds the mutex init and frees; a lock
failure unwinds cond then mutex (reverse of init order) and frees; a
mutex-init failure just frees; and on every non-success return no new fat
remains allocated. -/
theorem skinny_mutex_promote_spec (head mallocOk : Bool) (mi ci lk : Int)
    (valAtCas : SVal) :
    (mallocOk = true → mi = 0 → ci = 0 → lk = 0
      → valAtCas = (if head then SVal.v1 else SVal.v0)
      → (skinny_mutex_promote head mallocOk mi ci lk valAtCas).ret = 0
        ∧ (skinny_mutex_promote head mallocOk mi ci lk valAtCas).fat
            = some ⟨head, 0, if head then 1 else 0, 0, 0⟩
        ∧ (skinny_mutex_promote head mallocOk mi ci lk valAtCas).val = SVal.fatPtr)
    ∧ (mallocOk = true → mi = 0 → ci = 0 → lk = 0
      → valAtCas ≠ (if head then SVal.v1 else SVal.v0)
      → (skinny_mutex_promote head mallocOk mi ci lk valAtCas).ret = -1
        ∧ (skinny_mutex_promote head mallocOk mi ci lk valAtCas).fat = none
        ∧ (skinny_mutex_promote head mallocOk mi ci lk valAtCas).trace
            = [.mutexInitCall, .condInitCall, .mutexLockCall, .mutexUnlockCall,
               .condDestroyCall, .mutexDestroyCall, .freeFat])
    ∧ (mallocOk = true → mi = 0 → ci ≠ 0
      → (skinny_mutex_promote head mallocOk mi ci lk valAtCas).ret = ci
        ∧ (skinny_mutex_promote head mallocOk mi ci lk valAtCas).trace
            = [.mutexInitCall, .condInitCall, .mutexDestroyCall, .freeFat])
    ∧ (mallocOk = true → mi = 0 → ci = 0 → lk ≠ 0
      → (skinny_mutex_promote head mallocOk mi ci lk valAtCas).ret = lk
        ∧ (skinny_mutex_promote head mallocOk mi ci lk valAtCas).trace
            = [.mutexInitCall, .condInitCall, .mutexLockCall,
               .condDestroyCall, .mutexDestroyCall, .freeFat])
    ∧ (mallocOk = true → mi ≠ 0
      → (skinny_mutex_promote head mallocOk mi ci lk valAtCas).ret = mi
        ∧ (skinny_mutex_promote head mallocOk mi ci lk valAtCas).trace
            = [.mutexInitCall, .freeFat])
    ∧ ((skinny_mutex_promote head mallocOk mi ci lk valAtCas).ret ≠ 0
      → (skinny_mutex_promote head mallocOk mi ci lk valAtCas).fat = none) := by
  unfold skinny_mutex_promote
  split_ifs <;> simp_all [ENOMEM]

/-- Witness for C6: promoting a held handle (head = 1) with all primitives
succeeding installs a fat with `held = true`, `refcount = 1`, all counters
zero. -/
theorem skinny_mutex_promote_spec_witness :
    (skinny_mutex_promote true true 0 0 0 SVal.v1).fat = some ⟨true, 0, 1, 0, 0⟩ :=
  ((skinny_mutex_promote_spec true true 0 0 0 SVal.v1).1 rfl rfl rfl rfl
    (by decide)).2.1

/-! ## `skinny_mutex_trylock` -/

/-- Result of `skinny_mutex_trylock`. -/
structure TryOut where
  ret : Option Int
  val : SVal
  fat : FatMutex
  trace : List Ev
deriving DecidableEq, Repr

/-- `skinny_mutex_trylock(skinny)`: dispatch on the skinny word.  0: CAS to
1 (sequential semantics: it succeeds).  1: return EBUSY.  Pointer: run
`fat_mutex_peg` — whose release walk (with inputs `exchanged`, `myRc`,
`mySuf`) updates `fat.refcount` and leaves the word pointing at the fat —
then, under the fat mutex, return EBUSY if held, else set `held`, bump the
refcount and return ok; either way the result is composed with the final
unlock via `recover`. -/
def skinny_mutex_trylock (val : SVal) (exchanged : List PegN) (myRc : Nat)
    (mySuf : List PegN) (fat : FatMutex) (lockRes unlockRes : Int) : TryOut :=
  match val with
  | .v0 => ⟨some 0, .v1, fat, []⟩
  | .v1 => ⟨some EBUSY, .v1, fat, []⟩
  | _ =>
    let w := fat_mutex_peg_walk exchanged myRc mySuf fat.refcount
    let fat1 := { fat with refcount := w.fat }
    if lockRes > 0 then ⟨some lockRes, .fatPtr, fat1, [.mutexLockCall]⟩
    else if fat1.held then
      ⟨recover EBUSY unlockRes, .fatPtr, fat1, [.mutexLockCall, .mutexUnlockCall]⟩
    else
      ⟨recover 0 unlockRes, .fatPtr,
        { fat1 with held := true, refcount := fat1.refcount + 1 },
        [.mutexLockCall, .mutexUnlockCall]⟩

/-- **C8.** For every try-acquire: when `val = 0` it attempts the CAS to 1
and returns ok on success; when `val = 1` it returns busy; when `val` is a
pointer it pegs and locks the fat, returns busy when `held` is true, and
otherwise sets `held`, bumps the refcount, unlocks and returns ok — and it
never waits on the condition variable. -/
theorem skinny_mutex_trylock_spec (val : SVal) (exchanged : List PegN)
    (myRc : Nat) (mySuf : List PegN) (fat : FatMutex) (lockRes unlockRes : Int)
    (hlk : lockRes = 0) (hul : unlockRes = 0) :
    (val = SVal.v0 →
      (skinny_mutex_trylock val exchanged myRc mySuf fat lockRes unlockRes).ret = some 0
      ∧ (skinny_mutex_trylock val exchanged myRc mySuf fat lockRes unlockRes).val = SVal.v1)
    ∧ (val = SVal.v1 →
      (skinny_mutex_trylock val exchanged myRc mySuf fat lockRes unlockRes).ret = some EBUSY
      ∧ (skinny_mutex_trylock val exchanged myRc mySuf fat lockRes unlockRes).fat = fat)
    ∧ ((val = SVal.fatPtr ∨ val = SVal.pegPtr) → fat.held = true →
      (skinny_mutex_trylock val exchanged myRc mySuf fat lockRes unlockRes).ret = some EBUSY
      ∧ (skinny_mutex_trylock val exchanged myRc mySuf fat lockRes unlockRes).fat.held = true)
    ∧ ((val = SVal.fatPtr ∨ val = SVal.pegPtr) → fat.held = false →
      (skinny_mutex_trylock val exchanged myRc mySuf fat lockRes unlockRes).ret = some 0
      ∧ (skinny_mutex_trylock val exchanged myRc mySuf fat lockRes unlockRes).fat.held = true
      ∧ (skinny_mutex_trylock val exchanged myRc mySuf fat lockRes unlockRes).fat.refcount
          = (fat_mutex_peg_walk exchanged myRc mySuf fat.refcount).fat + 1)
    ∧ Ev.condWaitCall ∉
        (skinny_mutex_trylock val exchanged myRc mySuf fat lockRes unlockRes).trace := by
  subst hlk; subst hul
  cases val <;> by_cases hh : fat.held <;>
    simp_all [skinny_mutex_trylock, recover]

/-- Witness for C8: try-acquiring a handle whose word is 1 reports busy. -/
theorem skinny_mutex_trylock_spec_witness :
    (skinny_mutex_trylock SVal.v1 [] 2 [] ⟨true, 0, 0, 0, 0⟩ 0 0).ret = some EBUSY :=
  ((skinny_mutex_trylock_spec SVal.v1 [] 2 [] ⟨true, 0, 0, 0, 0⟩ 0 0 rfl rfl).2.1 rfl).1

/-- **C10.** For every `skinny_mutex_trylock` call that returns busy, the
fat's logical state is unchanged: in the `val = 1` case nothing changes at
all, and in the pointer case with `held = true` the call returns busy with
`held` still true, `waiters`, `transfers` and `transfer_gen` untouched, and
the net refcount preserved: if the refcount entering the call was (number
of secondary chains in scope) + `other`, the refcount after it is (number
of surviving secondary chains in scope) + `other` — the peg installed by
the call perturbs the chain only transiently. -/
theorem skinny_mutex_trylock_busy_frame
    (val : SVal) (exchanged : List PegN) (myRc : Nat) (mySuf : List PegN)
    (fat : FatMutex) (hMine : hasMine exchanged = true → myRc = 2) :
    ((skinny_mutex_trylock SVal.v1 exchanged myRc mySuf fat 0 0).ret = some EBUSY
      ∧ (skinny_mutex_trylock SVal.v1 exchanged myRc mySuf fat 0 0).fat = fat)
    ∧ ((val = SVal.fatPtr ∨ val = SVal.pegPtr) → fat.held = true →
      (skinny_mutex_trylock val exchanged myRc mySuf fat 0 0).ret = some EBUSY
      ∧ (skinny_mutex_trylock val exchanged myRc mySuf fat 0 0).fat.held = true
      ∧ (skinny_mutex_trylock val exchanged myRc mySuf fat 0 0).fat.waiters = fat.waiters
      ∧ (skinny_mutex_trylock val exchanged myRc mySuf fat 0 0).fat.transfers
          = fat.transfers
      ∧ (skinny_mutex_trylock val exchanged myRc mySuf fat 0 0).fat.transfer_gen
          = fat.transfer_gen
      ∧ ∀ other : Int,
          fat.refcount = (if hasMine exchanged = true then 0 else 1) + other →
          (skinny_mutex_trylock val exchanged myRc mySuf fat 0 0).fat.refcount
            = ((if newChainLeft exchanged myRc = true then 1 else 0)
                + (if oldChainLeft exchanged myRc mySuf = true then 1 else 0) : Int)
              + other) := by
  constructor
  · exact ⟨rfl, rfl⟩
  · intro hval hh
    have hcons := pegWalk_conservation exchanged myRc mySuf fat.refcount hMine
    rcases hval with h | h <;> subst h <;>
      refine ⟨by simp [skinny_mutex_trylock, recover, hh],
        by simp [skinny_mutex_trylock, hh], by simp [skinny_mutex_trylock, hh],
        by simp [skinny_mutex_trylock, hh], by simp [skinny_mutex_trylock, hh],
        ?_⟩ <;>
    · intro other hother
      simp only [skinny_mutex_trylock, hh, if_pos, gt_iff_lt, lt_self_iff_false,
        if_false, if_true]
      rw [hcons, hother]
      split_ifs <;> omega

/-- Witness for C10: pointer-case busy try-acquire on a held fat whose
exchanged chain is our peg over one surviving stranger leaves `waiters`
untouched. -/
theorem skinny_mutex_trylock_busy_frame_witness :
    (skinny_mutex_trylock SVal.fatPtr [⟨true, 2⟩, ⟨false, 2⟩] 2 [] ⟨true, 4, 3, 0, 2⟩ 0 0).fat.waiters
      = (4 : Int) :=
  ((skinny_mutex_trylock_busy_frame SVal.fatPtr [⟨true, 2⟩, ⟨false, 2⟩] 2 []
      ⟨true, 4, 3, 0, 2⟩ (fun _ => rfl)).2 (Or.inl rfl) rfl).2.2.1

/-! ## `fat_mutex_get_held` and `skinny_mutex_unlock_slow` -/

/-- `fat_mutex_get_held(skinny, fatp)`: return EPERM when the word is 0;
otherwise get the locked fat (`getRes` is the `fat_mutex_get` result) and
return it when `held`, else unlock (`unlockRes`) and return EPERM.  The
second component tells whether the locked fat was returned to the caller. -/
def fat_mutex_get_held (val : SVal) (fat : FatMutex) (getRes unlockRes : Int) :
    Int × Bool :=
  match val with
  | .v0 => (EPERM, false)
  | _ =>
    if getRes ≠ 0 then (getRes, false)
    else if fat.held then (0, true)
    else if unlockRes ≠ 0 then (unlockRes, false)
    else (EPERM, false)

/-- Result of `skinny_mutex_unlock_slow`. -/
structure USOut where
  ret : Option Int
  fat : FatMutex
  fatAlive : Bool
  val : SVal
  trace : List Ev
deriving DecidableEq, Repr

/-- `skinny_mutex_unlock_slow(skinny)`: obtain the held fat via
`fat_mutex_get_held`; on failure return that error; otherwise clear `held`,
signal the cond if there are waiters (`sigRes`), and release the fat,
composing the two results with `recover`. -/
def skinny_mutex_unlock_slow (val : SVal) (fat : FatMutex) (getRes gU sigRes : Int)
    (valAtCas : SVal) (rU rM rC : Int) : USOut :=
  let g := fat_mutex_get_held val fat getRes gU
  if g.2 = false then
    ⟨some g.1, fat, true, val, []⟩
  else
    let f1 : FatMutex := { fat with held := false }
    let sres := if fat.waiters ≠ 0 then sigRes else 0
    let rel := fat_mutex_release valAtCas f1 rU rM rC
    ⟨recover sres rel.ret, rel.fat, rel.fatAlive, rel.val,
      (if fat.waiters ≠ 0 then [Ev.condSignalCall] else []) ++ rel.trace⟩

lemma fat_mutex_release_refcount (v : SVal) (f : FatMutex) (u m c : Int) :
    (fat_mutex_release v f u m c).fat.refcount = f.refcount - 1 := by
  unfold fat_mutex_release
  by_cases hp : f.refcount - 1 = 0 ∧ v = SVal.fatPtr
  · rw [if_pos hp]
    split_ifs <;> simp [hp.1]
  · rw [if_neg hp]

lemma fat_mutex_release_held (v : SVal) (f : FatMutex) (u m c : Int) :
    (fat_mutex_release v f u m c).fat.held = f.held := by
  unfold fat_mutex_release
  by_cases hp : f.refcount - 1 = 0 ∧ v = SVal.fatPtr
  · rw [if_pos hp]
    split_ifs <;> rfl
  · rw [if_neg hp]

lemma fat_mutex_release_waiters (v : SVal) (f : FatMutex) (u m c : Int) :
    (fat_mutex_release v f u m c).fat.waiters = f.waiters := by
  unfold fat_mutex_release
  by_cases hp : f.refcount - 1 = 0 ∧ v = SVal.fatPtr
  · rw [if_pos hp]
    split_ifs <;> rfl
  · rw [if_neg hp]

lemma fat_mutex_release_transfers (v : SVal) (f : FatMutex) (u m c : Int) :
    (fat_mutex_release v f u m c).fat.transfers = f.transfers := by
  unfold fat_mutex_release
  by_cases hp : f.refcount - 1 = 0 ∧ v = SVal.fatPtr
  · rw [if_pos hp]
    split_ifs <;> rfl
  · rw [if_neg hp]

lemma fat_mutex_release_transfer_gen (v : SVal) (f : FatMutex) (u m c : Int) :
    (fat_mutex_release v f u m c).fat.transfer_gen = f.transfer_gen := by
  unfold fat_mutex_release
  by_cases hp : f.refcount - 1 = 0 ∧ v = SVal.fatPtr
  · rw [if_pos hp]
    split_ifs <;> rfl
  · rw [if_neg hp]

lemma fat_mutex_release_no_signal (v : SVal) (f : FatMutex) (u m c : Int) :
    Ev.condSignalCall ∉ (fat_mutex_release v f u m c).trace := by
  unfold fat_mutex_release
  by_cases hp : f.refcount - 1 = 0 ∧ v = SVal.fatPtr
  · rw [if_pos hp]
    split_ifs <;> simp
  · rw [if_neg hp]
    simp

/-- **C7.** For every slow unlock: if the mutex is not logically held
(`val = 0`, or the located fat has `held = false`), it returns the
not-owner error EPERM without changing the logical state; otherwise it sets
`held` to false, signals the cond exactly when `waiters > 0`, and then
releases the fat (refcount decremented, release trace appended, results
composed). -/
theorem skinny_mutex_unlock_slow_spec (val : SVal) (fat : FatMutex)
    (getRes gU sigRes : Int) (valAtCas : SVal) (rU rM rC : Int)
    (hw : 0 ≤ fat.waiters) :
    (val = SVal.v0 →
      (skinny_mutex_unlock_slow val fat getRes gU sigRes valAtCas rU rM rC).ret
          = some EPERM
      ∧ (skinny_mutex_unlock_slow val fat getRes gU sigRes valAtCas rU rM rC).fat = fat
      ∧ (skinny_mutex_unlock_slow val fat getRes gU sigRes valAtCas rU rM rC).trace = [])
    ∧ (val ≠ SVal.v0 → getRes = 0 → gU = 0 → fat.held = false →
      (skinny_mutex_unlock_slow val fat getRes gU sigRes valAtCas rU rM rC).ret
          = some EPERM
      ∧ (skinny_mutex_unlock_slow val fat getRes gU sigRes valAtCas rU rM rC).fat = fat
      ∧ (skinny_mutex_unlock_slow val fat getRes gU sigRes valAtCas rU rM rC).trace = [])
    ∧ (val ≠ SVal.v0 → getRes = 0 → fat.held = true →
      (skinny_mutex_unlock_slow val fat getRes gU sigRes valAtCas rU rM rC).fat.held
          = false
      ∧ (Ev.condSignalCall ∈
          (skinny_mutex_unlock_slow val fat getRes gU sigRes valAtCas rU rM rC).trace
          ↔ 0 < fat.waiters)
      ∧ (skinny_mutex_unlock_slow val fat getRes gU sigRes valAtCas rU rM rC).fat.refcount
          = fat.refcount - 1
      ∧ (skinny_mutex_unlock_slow val fat getRes gU sigRes valAtCas rU rM rC).trace
          = (if 0 < fat.waiters then [Ev.condSignalCall] else [])
            ++ (fat_mutex_release valAtCas { fat with held := false } rU rM rC).trace
      ∧ (skinny_mutex_unlock_slow val fat getRes gU sigRes valAtCas rU rM rC).ret
          = recover (if 0 < fat.waiters then sigRes else 0)
              (fat_mutex_release valAtCas { fat with held := false } rU rM rC).ret) := by
  have hwiff : (fat.waiters ≠ 0) ↔ (0 < fat.waiters) := by omega
  refine ⟨?_, ?_, ?_⟩
  · intro h; subst h
    exact ⟨rfl, rfl, rfl⟩
  · intro hv hg hgu hh
    subst hg; subst hgu
    cases val <;> simp_all [skinny_mutex_unlock_slow, fat_mutex_get_held]
  · intro hv hg hh
    subst hg
    have hrel := fat_mutex_release_refcount valAtCas { fat with held := false } rU rM rC
    have hsig := fat_mutex_release_no_signal valAtCas { fat with held := false } rU rM rC
    have hhl := fat_mutex_release_held valAtCas { fat with held := false } rU rM rC
    cases val <;>
      simp_all [skinny_mutex_unlock_slow, fat_mutex_get_held, hwiff]

/-- Witness for C7: slow-unlocking an unheld (val = 0) handle reports the
not-owner error. -/
theorem skinny_mutex_unlock_slow_spec_witness :
    (skinny_mutex_unlock_slow SVal.v0 ⟨false, 0, 0, 0, 0⟩ 0 0 0 SVal.v0 0 0 0).ret
      = some EPERM :=
  ((skinny_mutex_unlock_slow_spec SVal.v0 ⟨false, 0, 0, 0, 0⟩ 0 0 0 SVal.v0 0 0 0
      (by decide)).1 rfl).1

/-! ## `skinny_mutex_veto_transfer` -/

lemma fat_mutex_release_ret_ok (v : SVal) (f : FatMutex) :
    (fat_mutex_release v f 0 0 0).ret = 0 := by
  unfold fat_mutex_release
  by_cases hp : f.refcount - 1 = 0 ∧ v = SVal.fatPtr
  · rw [if_pos hp]
    simp
  · rw [if_neg hp]

/-- Result of `skinny_mutex_veto_transfer`. -/
structure VetoOut where
  ret : Option Int
  fat : FatMutex
  trace : List Ev
deriving DecidableEq, Repr

/-- `skinny_mutex_veto_transfer(skinny)`: snapshot the word.  1: return
ok (no fat exists, so no transferer can be waiting).  0: return EPERM.
Pointer: peg and lock the fat (`pegRes` is the `fat_mutex_peg` result); if
`held`, bump `transfer_gen` and broadcast the cond (`bcastRes`) when
`transfers > 0`, else keep EPERM; compose with the final unlock. -/
def skinny_mutex_veto_transfer (val : SVal) (fat : FatMutex)
    (pegRes bcastRes unlockRes : Int) : VetoOut :=
  match val with
  | .v1 => ⟨some 0, fat, []⟩
  | .v0 => ⟨some EPERM, fat, []⟩
  | _ =>
    if pegRes > 0 then ⟨some pegRes, fat, []⟩
    else if fat.held then
      ⟨recover (if fat.transfers ≠ 0 then bcastRes else 0) unlockRes,
        { fat with transfer_gen := fat.transfer_gen + 1 },
        (if fat.transfers ≠ 0 then [Ev.condBroadcastCall] else [])
          ++ [.mutexUnlockCall]⟩
    else ⟨recover EPERM unlockRes, fat, [.mutexUnlockCall]⟩

/-- **C9.** For every `veto_transfer` call: a snapshot of 1 returns ok, a
snapshot of 0 returns not-owner, and on the pointer case it pegs and locks
the fat and, exactly when `held` is true, increments `transfer_gen` and
broadcasts the cond when `transfers > 0`, then unlocks (the unlock is the
final event). -/
theorem skinny_mutex_veto_transfer_spec (val : SVal) (fat : FatMutex)
    (pegRes bcastRes unlockRes : Int)
    (hp : pegRes = 0) (hu : unlockRes = 0) (ht : 0 ≤ fat.transfers) :
    (val = SVal.v1 →
      (skinny_mutex_veto_transfer val fat pegRes bcastRes unlockRes).ret = some 0
      ∧ (skinny_mutex_veto_transfer val fat pegRes bcastRes unlockRes).fat = fat)
    ∧ (val = SVal.v0 →
      (skinny_mutex_veto_transfer val fat pegRes bcastRes unlockRes).ret = some EPERM
      ∧ (skinny_mutex_veto_transfer val fat pegRes bcastRes unlockRes).fat = fat)
    ∧ ((val = SVal.fatPtr ∨ val = SVal.pegPtr) →
      ((skinny_mutex_veto_transfer val fat pegRes bcastRes unlockRes).fat.transfer_gen
          = fat.transfer_gen + 1 ↔ fat.held = true)
      ∧ (Ev.condBroadcastCall ∈
          (skinny_mutex_veto_transfer val fat pegRes bcastRes unlockRes).trace
          ↔ (fat.held = true ∧ 0 < fat.transfers))
      ∧ (skinny_mutex_veto_transfer val fat pegRes bcastRes unlockRes).trace.getLast?
          = some Ev.mutexUnlockCall
      ∧ (fat.held = true →
          (skinny_mutex_veto_transfer val fat pegRes bcastRes unlockRes).ret
            = some (if 0 < fat.transfers then bcastRes else 0))
      ∧ (fat.held = false →
          (skinny_mutex_veto_transfer val fat pegRes bcastRes unlockRes).ret
            = some EPERM
          ∧ (skinny_mutex_veto_transfer val fat pegRes bcastRes unlockRes).fat
            = fat)) := by
  subst hp; subst hu
  have htiff : (fat.transfers ≠ 0) ↔ (0 < fat.transfers) := by omega
  refine ⟨fun h => by subst h; exact ⟨rfl, rfl⟩,
    fun h => by subst h; exact ⟨rfl, rfl⟩, ?_⟩
  intro hval
  rcases hval with h | h <;> subst h <;>
    by_cases hh : fat.held <;>
    by_cases htr : fat.transfers = 0 <;>
    simp_all [skinny_mutex_veto_transfer, recover]

/-- Witness for C9: a veto on a held, pegged handle with one pending
transfer bumps the generation counter. -/
theorem skinny_mutex_veto_transfer_spec_witness :
    (skinny_mutex_veto_transfer SVal.fatPtr ⟨true, 1, 2, 7, 1⟩ 0 0 0).fat.transfer_gen
      = (8 : Int) :=
  (((skinny_mutex_veto_transfer_spec SVal.fatPtr ⟨true, 1, 2, 7, 1⟩ 0 0 0 rfl rfl
      (by decide)).2.2 (Or.inl rfl)).1).mpr rfl

/-! ## The wait loop of `skinny_mutex_transfer` -/

/-- What the transferring thread observes at the top of one iteration of
the wait loop: the current `held` and `transfer_gen` of `fat_b` (both may
have been changed by other threads while it slept), and the result of the
`pthread_cond_wait` it performs if it stays in the loop. -/
structure TransferObs where
  held : Bool
  gen : Int
  waitRes : Int
deriving DecidableEq, Repr

/-- How the wait loop of `skinny_mutex_transfer` terminates. -/
inductive TExit where
  | acquired
  | errExit (res : Int)
  | pending
deriving DecidableEq, Repr

/-- The `for (;;)` loop of `skinny_mutex_transfer` after `transfers` and
`waiters` were incremented: acquire when not held; exit with EAGAIN when
the generation changed; exit with the wait error when the wait fails;
otherwise wait again.  `pending` means the observation list ran out while
still waiting. -/
def transfer_wait_loop (recordedGen : Int) : List TransferObs → TExit
  | [] => .pending
  | o :: rest =>
    if o.held = false then .acquired
    else if o.gen ≠ recordedGen then .errExit EAGAIN
    else if o.waitRes ≠ 0 then .errExit o.waitRes
    else transfer_wait_loop recordedGen rest

/-- Result of the tail of `skinny_mutex_transfer`. -/
structure TransOut where
  ret : Option Int
  fat : FatMutex
  fatAlive : Bool
  trace : List Ev
deriving DecidableEq, Repr

/-- The tail of `skinny_mutex_transfer` from the wait loop on: on acquire,
decrement `transfers` and `waiters`, set `held`, unlock; on an error exit
(vetoed or wait failure), decrement `transfers` and `waiters`, release
`fat_b` (under `fat_b.mutex`), re-acquire `a` (`lockARes`), composing the
results with `recover` at each step.  `fatb` is the fat of `b` as the loop
leaves it. -/
def skinny_mutex_transfer_wait (recordedGen : Int) (obs : List TransferObs)
    (fatb : FatMutex) (unlockRes : Int) (valAtCas : SVal) (rU rM rC : Int)
    (lockARes : Int) : TransOut :=
  match transfer_wait_loop recordedGen obs with
  | .pending => ⟨none, fatb, true, []⟩
  | .acquired =>
    ⟨some unlockRes,
      { fatb with transfers := fatb.transfers - 1, waiters := fatb.waiters - 1,
                  held := true },
      true, [.decTransfers, .decWaiters, .mutexUnlockCall]⟩
  | .errExit r =>
    let f1 : FatMutex :=
      { fatb with transfers := fatb.transfers - 1, waiters := fatb.waiters - 1 }
    let rel := fat_mutex_release valAtCas f1 rU rM rC
    ⟨(recover r rel.ret).bind (fun x => recover x lockARes),
      rel.fat, rel.fatAlive,
      [.decTransfers, .decWaiters] ++ rel.trace ++ [.lockACall]⟩

/-- **C3.** For every transfer that has bumped `fat_b.refcount`, recorded
`transfer_gen`, and is waiting for `b`: if the observed `transfer_gen`
differs from the recorded value (and `b` is still held), the loop stops
waiting with EAGAIN; and on any error exit (EAGAIN or a wait error) the
tail decrements both `transfers` and `waiters`, releases `fat_b`
(decrementing the bumped refcount), re-acquires `a`, and returns the
composed error — in particular EAGAIN itself when the recovery primitives
succeed. -/
theorem skinny_mutex_transfer_veto_exit (recordedGen : Int) (o : TransferObs)
    (rest : List TransferObs) (fatb : FatMutex) (unlockRes : Int)
    (valAtCas : SVal) (rU rM rC lockARes : Int)
    (hheld : o.held = true) (hgen : o.gen ≠ recordedGen) :
    transfer_wait_loop recordedGen (o :: rest) = .errExit EAGAIN
    ∧ (∀ (obs : List TransferObs) (r : Int),
        transfer_wait_loop recordedGen obs = .errExit r →
        (skinny_mutex_transfer_wait recordedGen obs fatb unlockRes valAtCas
            rU rM rC lockARes).fat.transfers = fatb.transfers - 1
        ∧ (skinny_mutex_transfer_wait recordedGen obs fatb unlockRes valAtCas
            rU rM rC lockARes).fat.waiters = fatb.waiters - 1
        ∧ (skinny_mutex_transfer_wait recordedGen obs fatb unlockRes valAtCas
            rU rM rC lockARes).fat.refcount = fatb.refcount - 1
        ∧ (skinny_mutex_transfer_wait recordedGen obs fatb unlockRes valAtCas
            rU rM rC lockARes).trace
          = [Ev.decTransfers, Ev.decWaiters]
            ++ (fat_mutex_release valAtCas
                { fatb with transfers := fatb.transfers - 1,
                            waiters := fatb.waiters - 1 } rU rM rC).trace
            ++ [Ev.lockACall]
        ∧ (skinny_mutex_transfer_wait recordedGen obs fatb unlockRes valAtCas
            rU rM rC lockARes).ret
          = (recover r (fat_mutex_release valAtCas
                { fatb with transfers := fatb.transfers - 1,
                            waiters := fatb.waiters - 1 } rU rM rC).ret).bind
              (fun x => recover x lockARes))
    ∧ (rU = 0 → rM = 0 → rC = 0 → lockARes = 0 →
        (skinny_mutex_transfer_wait recordedGen (o :: rest) fatb unlockRes valAtCas
            rU rM rC lockARes).ret = some EAGAIN) := by
  have hloop : transfer_wait_loop recordedGen (o :: rest) = .errExit EAGAIN := by
    simp [transfer_wait_loop, hheld, hgen]
  refine ⟨hloop, ?_, ?_⟩
  · intro obs r hx
    have hrc := fat_mutex_release_refcount valAtCas
      { fatb with transfers := fatb.transfers - 1, waiters := fatb.waiters - 1 }
      rU rM rC
    have hwa := fat_mutex_release_waiters valAtCas
      { fatb with transfers := fatb.transfers - 1, waiters := fatb.waiters - 1 }
      rU rM rC
    have htr := fat_mutex_release_transfers valAtCas
      { fatb with transfers := fatb.transfers - 1, waiters := fatb.waiters - 1 }
      rU rM rC
    simp [skinny_mutex_transfer_wait, hx, hrc, hwa, htr]
  · intro h1 h2 h3 h4
    subst h1; subst h2; subst h3; subst h4
    have hret := fat_mutex_release_ret_ok valAtCas
      { fatb with transfers := fatb.transfers - 1, waiters := fatb.waiters - 1 }
    simp [skinny_mutex_transfer_wait, hloop, hret, recover, EAGAIN]

/-- Witness for C3: a vetoed transfer (generation 3 recorded, 4 observed,
`b` held) with succeeding recovery primitives returns EAGAIN. -/
theorem skinny_mutex_transfer_veto_exit_witness :
    (skinny_mutex_transfer_wait 3 [⟨true, 4, 0⟩] ⟨true, 2, 2, 4, 1⟩ 0 SVal.v0
        0 0 0 0).ret = some EAGAIN :=
  (skinny_mutex_transfer_veto_exit 3 ⟨true, 4, 0⟩ [] ⟨true, 2, 2, 4, 1⟩ 0 SVal.v0
      0 0 0 0 rfl (by decide)).2.2 rfl rfl rfl rfl

/-! ## `fat_mutex_lock` and `skinny_mutex_cond_timedwait` -/

/-- Result of `fat_mutex_lock`: either it came out of the wait loop (with
the composed return value, the fat as it left it, whether the fat is still
allocated, and the skinny word), or the observation list ran out while it
was still waiting. -/
inductive LockRes where
  | out (ret : Option Int) (fat : FatMutex) (fatAlive : Bool) (val : SVal)
  | pending
deriving DecidableEq, Repr

/-- The fat a `fat_mutex_lock` outcome carries, if it produced one. -/
def LockRes.fatOf : LockRes → Option FatMutex
  | .out _ f _ _ => some f
  | .pending => none

/-- The wait loop of `fat_mutex_lock`, entered with `waiters` already
incremented.  Each step supplies the `pthread_cond_wait` result and the
value of `held` observed after waking.  A wait error decrements `waiters`
and releases the fat, composing the results; waking with `held` still true
waits again; waking with `held` false exits the loop, decrements `waiters`,
sets `held` and unlocks. -/
def fat_mutex_lock_loop (fat : FatMutex) (steps : List (Int × Bool))
    (unlockRes : Int) (valAtCas : SVal) (rU rM rC : Int) : LockRes :=
  match steps with
  | [] => .pending
  | (waitRes, heldAfter) :: rest =>
    if waitRes ≠ 0 then
      let rel := fat_mutex_release valAtCas { fat with waiters := fat.waiters - 1 }
        rU rM rC
      .out (recover waitRes rel.ret) rel.fat rel.fatAlive rel.val
    else if heldAfter then
      fat_mutex_lock_loop { fat with held := true } rest unlockRes valAtCas rU rM rC
    else
      .out (some unlockRes)
        { fat with held := true, waiters := fat.waiters - 1 } true valAtCas

/-- `fat_mutex_lock(skinny, fat)`, called holding `fat.mutex` with the
caller's refcount contribution already in place: wait while `held`, then
set `held` and unlock. -/
def fat_mutex_lock (fat : FatMutex) (steps : List (Int × Bool)) (unlockRes : Int)
    (valAtCas : SVal) (rU rM rC : Int) : LockRes :=
  if fat.held then
    fat_mutex_lock_loop { fat with waiters := fat.waiters + 1 } steps unlockRes
      valAtCas rU rM rC
  else
    .out (some unlockRes) { fat with held := true } true valAtCas

/-- Result of `skinny_mutex_cond_timedwait`. -/
structure CWOut where
  ret : Option Int
  entered : Bool
  during : FatMutex
  reacq : LockRes
  trace : List Ev
deriving DecidableEq, Repr

/-- `skinny_mutex_cond_timedwait(cond, skinny, abstime)`: obtain the held
fat (`fat_mutex_get_held`); signal the internal cond when there are waiters
(unlocking and returning on a signal error); clear `held` while leaving the
refcount contribution in place; wait on the user cond (`waitRes` — the
cleanup pushed around the wait always runs, also on cancellation); the
cleanup re-acquires via `fat_mutex_lock` on the fat as the environment left
it (`heldAtReacq`, `steps`); finally compose the wait result with the
re-acquire result. -/
def skinny_mutex_cond_timedwait (val : SVal) (fat : FatMutex)
    (getRes gU sigRes waitRes : Int) (heldAtReacq : Bool)
    (steps : List (Int × Bool)) (lU : Int) (valAtCas : SVal) (rU rM rC : Int) :
    CWOut :=
  let g := fat_mutex_get_held val fat getRes gU
  if g.2 = false then ⟨some g.1, false, fat, .pending, []⟩
  else if fat.waiters ≠ 0 ∧ sigRes ≠ 0 then
    ⟨some sigRes, false, fat, .pending, [.condSignalCall, .mutexUnlockCall]⟩
  else
    let during : FatMutex := { fat with held := false }
    let reacq := fat_mutex_lock { during with held := heldAtReacq } steps lU
      valAtCas rU rM rC
    let ret := match reacq with
      | .out r _ _ _ => r.bind (fun lr => recover waitRes lr)
      | .pending => none
    ⟨ret, true, during, reacq,
      (if fat.waiters ≠ 0 then [Ev.condSignalCall] else []) ++ [.condWaitCall]⟩

/-- **C5.** For every cond-wait call made while the mutex is held: it
signals the internal cond exactly when `waiters > 0`, clears `held` while
retaining the caller's refcount contribution (the fat state during the wait
has `held = false` and the same refcount), registers a cleanup that
re-acquires via `fat_mutex_lock` (also run on cancellation), returns the
wait result composed with the re-acquire result per `recover` (aborting
exactly when both are nonzero, otherwise returning the nonzero one), and a
retained contribution of at least one keeps any concurrent release from
freeing the fat. -/
theorem skinny_mutex_cond_timedwait_spec (val : SVal) (fat : FatMutex)
    (getRes gU sigRes waitRes : Int) (heldAtReacq : Bool)
    (steps : List (Int × Bool)) (lU : Int) (valAtCas : SVal) (rU rM rC : Int)
    (hval : val ≠ SVal.v0) (hget : getRes = 0) (hheld : fat.held = true)
    (hw : 0 ≤ fat.waiters) (hsig : sigRes = 0) :
    (skinny_mutex_cond_timedwait val fat getRes gU sigRes waitRes heldAtReacq
        steps lU valAtCas rU rM rC).entered = true
    ∧ (Ev.condSignalCall ∈ (skinny_mutex_cond_timedwait val fat getRes gU sigRes
        waitRes heldAtReacq steps lU valAtCas rU rM rC).trace ↔ 0 < fat.waiters)
    ∧ (skinny_mutex_cond_timedwait val fat getRes gU sigRes waitRes heldAtReacq
        steps lU valAtCas rU rM rC).during.held = false
    ∧ (skinny_mutex_cond_timedwait val fat getRes gU sigRes waitRes heldAtReacq
        steps lU valAtCas rU rM rC).during.refcount = fat.refcount
    ∧ (skinny_mutex_cond_timedwait val fat getRes gU sigRes waitRes heldAtReacq
        steps lU valAtCas rU rM rC).reacq
        = fat_mutex_lock { fat with held := heldAtReacq } steps lU valAtCas rU rM rC
    ∧ (heldAtReacq = false → lU = 0 →
        (skinny_mutex_cond_timedwait val fat getRes gU sigRes waitRes heldAtReacq
            steps lU valAtCas rU rM rC).reacq
          = .out (some 0) { fat with held := true } true valAtCas
        ∧ (skinny_mutex_cond_timedwait val fat getRes gU sigRes waitRes heldAtReacq
            steps lU valAtCas rU rM rC).ret = some waitRes)
    ∧ (heldAtReacq = true → lU = 0 → steps = [(0, false)] →
        (skinny_mutex_cond_timedwait val fat getRes gU sigRes waitRes heldAtReacq
            steps lU valAtCas rU rM rC).ret = some waitRes
        ∧ ((skinny_mutex_cond_timedwait val fat getRes gU sigRes waitRes heldAtReacq
            steps lU valAtCas rU rM rC).reacq.fatOf.map FatMutex.refcount
          = some fat.refcount)
        ∧ ((skinny_mutex_cond_timedwait val fat getRes gU sigRes waitRes heldAtReacq
            steps lU valAtCas rU rM rC).reacq.fatOf.map FatMutex.waiters
          = some fat.waiters)
        ∧ ((skinny_mutex_cond_timedwait val fat getRes gU sigRes waitRes heldAtReacq
            steps lU valAtCas rU rM rC).reacq.fatOf.map FatMutex.held
          = some true))
    ∧ (∀ r1 r2 : Int, (recover r1 r2 = none ↔ (r1 ≠ 0 ∧ r2 ≠ 0))
        ∧ (r2 = 0 → recover r1 r2 = some r1) ∧ (r1 = 0 → recover r1 r2 = some r2))
    ∧ (∀ (f2 : FatMutex) (v : SVal) (u m c : Int), 2 ≤ f2.refcount →
        (fat_mutex_release v f2 u m c).fatAlive = true) := by
  subst hget; subst hsig
  have hg : fat_mutex_get_held val fat 0 gU = (0, true) := by
    cases val <;> simp_all [fat_mutex_get_held]
  have hwiff : (fat.waiters ≠ 0) ↔ (0 < fat.waiters) := by omega
  have hmain : skinny_mutex_cond_timedwait val fat 0 gU 0 waitRes heldAtReacq
      steps lU valAtCas rU rM rC
      = ⟨(match fat_mutex_lock { fat with held := heldAtReacq } steps lU valAtCas
            rU rM rC with
          | .out r _ _ _ => r.bind (fun lr => recover waitRes lr)
          | .pending => none),
        true, { fat with held := false },
        fat_mutex_lock { fat with held := heldAtReacq } steps lU valAtCas rU rM rC,
        (if fat.waiters ≠ 0 then [Ev.condSignalCall] else []) ++ [.condWaitCall]⟩ := by
    simp [skinny_mutex_cond_timedwait, hg]
  rw [hmain]
  refine ⟨rfl, ?_, rfl, rfl, rfl, ?_, ?_, ?_, ?_⟩
  · by_cases hnz : fat.waiters ≠ 0 <;> simp_all
  · intro h1 h2
    subst h1; subst h2
    have hl : fat_mutex_lock { fat with held := false } steps 0 valAtCas rU rM rC
        = .out (some 0) { fat with held := true } true valAtCas := by
      simp [fat_mutex_lock]
    exact ⟨hl, by simp [hl, recover]⟩
  · intro h1 h2 h3
    subst h1; subst h2; subst h3
    have hl : fat_mutex_lock { fat with held := true } [((0 : Int), false)] 0
          valAtCas rU rM rC
        = .out (some 0)
            { fat with held := true, waiters := fat.waiters + 1 - 1 } true valAtCas := by
      simp [fat_mutex_lock, fat_mutex_lock_loop]
    simp [hl, recover, LockRes.fatOf]
  · intro r1 r2
    unfold recover
    split_ifs <;> simp_all
  · intro f2 v u m c hrc
    unfold fat_mutex_release
    have hne : ¬(f2.refcount - 1 = 0 ∧ v = SVal.fatPtr) := by
      intro hx
      omega
    rw [if_neg hne]

/-- Witness for C5: waiting on a held handle with one waiter pending,
wait result 0, immediate re-acquire; the composed return is 0 and the
refcount is retained. -/
theorem skinny_mutex_cond_timedwait_spec_witness :
    (skinny_mutex_cond_timedwait SVal.fatPtr ⟨true, 1, 2, 0, 0⟩ 0 0 0 0 false [] 0
        SVal.fatPtr 0 0 0).ret = some 0 :=
  ((skinny_mutex_cond_timedwait_spec SVal.fatPtr ⟨true, 1, 2, 0, 0⟩ 0 0 0 0 false
      [] 0 SVal.fatPtr 0 0 0 (by decide) rfl rfl (by decide) rfl).2.2.2.2.2.1
    rfl rfl).2

end SkinnyMutex
